import Mathlib

/-!
Shallow embedding of `simulator.py` from the `optimal-injection-schedule`
repository (class `InjectionSimulator`), together with proofs checking the
natural-language specification against it.

Modelling conventions:
* Python floats are modelled as rationals (`ℚ`); Python ints as `ℤ`
  (days, which start at 1 and only increase, as `ℕ`).
* Python's `round(x, 2)` is banker's rounding to two decimals, modelled by
  `round2` (round half to even on `100 * x`).
* The flat `dose_info` array (`dose_info[2*i]` = dose rate,
  `dose_info[2*i+1]` = frequency) is modelled as a list of
  (rate, frequency) pairs carrying the same data.
* The `while` loops of `run_simulation` take an explicit fuel argument;
  `none` means the fuel did not suffice (the inner loop is given fuel
  `total_people`, which is proved sufficient for valid trials).
* The field `consumed` is a specification-only ghost accumulator recording
  the total volume successfully injected so far; it is written by the
  embedding exactly when `do_injection` reports success and is read by no
  operation, so it does not influence any behaviour of the model.
* Python's `day % frequency == 0` test is modelled with `Int.emod`; for a
  zero frequency Python raises `ZeroDivisionError` while `Int.emod d 0 = d`,
  but (as proved below) a zero frequency forces a zero dosage, which makes
  the trial invalid before the day loop runs, so the difference is
  unreachable in `run_simulation`.
-/

/-- Round half to even (Python's `round`) for rationals, to an integer. -/
def halfEvenRound (q : ℚ) : ℤ :=
  let n := ⌊q⌋
  let r := q - n
  if r < 1/2 then n
  else if 1/2 < r then n + 1
  else if Even n then n else n + 1

/-- Python's `round(x, 2)`: round to two decimal places, half to even. -/
def round2 (q : ℚ) : ℚ := (halfEvenRound (q * 100) : ℚ) / 100

/-- One entry of `self.dosage_dicts`: the per-person dict built in
`InjectionSimulator.__init__`. -/
structure PersonDosage where
  dosage : ℚ
  frequency : ℤ
  name : String
deriving DecidableEq

/-- Dosage of `dosage_dicts[0]` (the Python code indexes `[0]`;
0 as a default for the never-used empty case). -/
def headDosage (l : List PersonDosage) : ℚ :=
  match l.head? with
  | some p => p.dosage
  | none => 0

/-- Dosage of `dosage_dicts[-1]` (the Python code indexes `[-1]`;
0 as a default for the never-used empty case). -/
def lastDosage (l : List PersonDosage) : ℚ :=
  match l.head? with
  | some _ => match l.getLast? with
              | some p => p.dosage
              | none => 0
  | none => 0

/-- The roster construction of `InjectionSimulator.__init__`: per person,
dosage `round(rate * frequency, 2)`, then sort by dosage, largest first.
Python's `sorted(..., reverse=True)` is a stable descending sort; it is
modelled by the stable `List.insertionSort` under the relation
"left element's dosage is at least the right one's", which places each
element before the first strictly-smaller one, preserving the original
order of equal dosages exactly as Python's stable sort does. -/
def mkDosageDicts (total_people : ℕ) (namelist : List String)
    (dose_info : List (ℚ × ℤ)) : List PersonDosage :=
  let raw := (List.range total_people).map (fun i =>
    let rf := dose_info.getD i (0, 0)
    { dosage := round2 (rf.1 * (rf.2 : ℚ)), frequency := rf.2,
      name := namelist.getD i "" : PersonDosage })
  raw.insertionSort (fun a b => b.dosage ≤ a.dosage)

/-- `InjectionSimulator.check_legal_dosages`: `early_termination` is set
iff the largest dosage exceeds the vial volume or the smallest dosage is
non-positive. -/
def check_legal_dosages (dicts : List PersonDosage) (vial_volume : ℚ) : Bool :=
  decide (vial_volume < headDosage dicts) || decide (lastDosage dicts ≤ 0)

/-- The mutable state of an `InjectionSimulator` object. -/
structure SimState where
  dosage_dicts : List PersonDosage
  total_people : ℕ
  num_vials : ℤ
  vial_volume : ℚ
  injections_handled : List Bool
  leftover_vial : Bool
  leftover_amount : ℚ
  vials_used : ℤ
  waste : ℚ
  left_in_vial : ℚ
  early_termination : Bool
  day : ℕ
  consumed : ℚ
deriving DecidableEq

/-- `InjectionSimulator.__init__`. -/
def init (total_people : ℕ) (namelist : List String)
    (dose_info : List (ℚ × ℤ)) (num_vials : ℤ) (vial_volume : ℚ) : SimState :=
  let dicts := mkDosageDicts total_people namelist dose_info
  { dosage_dicts := dicts
    total_people := total_people
    num_vials := num_vials
    vial_volume := vial_volume
    injections_handled := List.replicate total_people false
    leftover_vial := false
    leftover_amount := 0
    vials_used := 0
    waste := 0
    left_in_vial := vial_volume
    early_termination := check_legal_dosages dicts vial_volume
    day := 1
    consumed := 0 }

/-- `InjectionSimulator.do_injection`: returns the Python boolean result and
the updated state.  The `consumed` ghost field additionally records the dose
on success. -/
def do_injection (s : SimState) (dose : ℚ) : Bool × SimState :=
  if s.leftover_vial = true ∧ 0 ≤ s.leftover_amount - dose then
    if (s.leftover_amount - dose) - lastDosage s.dosage_dicts < 0 then
      (true, { s with leftover_amount := s.leftover_amount - dose,
                      waste := s.waste + (s.leftover_amount - dose),
                      leftover_vial := false, consumed := s.consumed + dose })
    else
      (true, { s with leftover_amount := s.leftover_amount - dose,
                      consumed := s.consumed + dose })
  else if 0 ≤ s.left_in_vial - dose then
    (true, { s with left_in_vial := s.left_in_vial - dose,
                    consumed := s.consumed + dose })
  else
    (false, s)

/-- `InjectionSimulator.update_vials_used`. -/
def update_vials_used (s : SimState) : SimState :=
  if s.left_in_vial < lastDosage s.dosage_dicts then
    { s with waste := s.waste + s.left_in_vial,
             vials_used := s.vials_used + 1,
             left_in_vial := s.vial_volume }
  else if lastDosage s.dosage_dicts ≤ s.left_in_vial ∧
          s.left_in_vial < headDosage s.dosage_dicts then
    { s with leftover_vial := true,
             leftover_amount := s.left_in_vial,
             vials_used := s.vials_used + 1,
             left_in_vial := s.vial_volume }
  else s

/-- The body of the `for i in range(self.total_people)` loop inside
`run_simulation`: walk the roster in order, paired with the current
`injections_handled` flags, producing the new flags and the new state. -/
def pass_go : List PersonDosage → List Bool → SimState → (List Bool × SimState)
  | [], _, s => ([], s)
  | _ :: _, [], s => ([], s)
  | p :: ps, h :: hs, s =>
    if ((s.day : ℤ) % p.frequency = 0) ∧ h = false then
      ((do_injection s p.dosage).1 ::
        (pass_go ps hs (do_injection s p.dosage).2).1,
       (pass_go ps hs (do_injection s p.dosage).2).2)
    else
      (true :: (pass_go ps hs s).1, (pass_go ps hs s).2)

/-- One full pass of the `for` loop over all people. -/
def inner_pass (s : SimState) : SimState :=
  let r := pass_go s.dosage_dicts s.injections_handled s
  { r.2 with injections_handled := r.1 }

/-- The `while False in self.injections_handled` loop: each iteration is one
pass followed by `update_vials_used`.  The fuel bounds the number of passes;
`none` means the fuel was insufficient. -/
def inner_loop : ℕ → SimState → Option SimState
  | 0, s => if false ∈ s.injections_handled then none else some s
  | fuel + 1, s =>
    if false ∈ s.injections_handled then
      inner_loop fuel (update_vials_used (inner_pass s))
    else some s

/-- One iteration of the outer `while self.vials_used < self.num_vials`
loop body: reset the handled flags, run the inner loop (with fuel
`total_people`, proved sufficient for valid trials), advance the day. -/
def dayStep (s : SimState) : Option SimState :=
  match inner_loop s.total_people
      { s with injections_handled := List.replicate s.total_people false } with
  | none => none
  | some s' => some { s' with day := s'.day + 1 }

/-- The outer day loop with fuel (one unit per simulated day). -/
def outer_loop : ℕ → SimState → Option SimState
  | 0, s => if s.vials_used < s.num_vials then none else some s
  | fuel + 1, s =>
    if s.vials_used < s.num_vials then
      match dayStep s with
      | none => none
      | some s1 => outer_loop fuel s1
    else some s

/-- Process exactly `n` simulated days (used to state which day first
reaches the vial target). -/
def sim_days : ℕ → SimState → Option SimState
  | 0, s => some s
  | n + 1, s =>
    match dayStep s with
    | none => none
    | some s1 => sim_days n s1

/-- `InjectionSimulator.run_simulation`, state-level: the final `SimState`
(or `none` when the fuel ran out).  Mirrors `self.day = 1` at entry and the
early-termination check. -/
def run_states (fuel : ℕ) (s : SimState) : Option SimState :=
  if s.early_termination = true then none
  else outer_loop fuel { s with day := 1 }

/-- `InjectionSimulator.run_simulation`: `some none` is Python's `None`
(invalid trial), `some (some (waste, day, dicts))` is the returned list,
and the outer `none` means the fuel ran out. -/
def run_simulation (fuel : ℕ) (s : SimState) :
    Option (Option (ℚ × ℕ × List PersonDosage)) :=
  if s.early_termination = true then some none
  else
    match outer_loop fuel { s with day := 1 } with
    | none => none
    | some s' => some (some (s'.waste, s'.day, s'.dosage_dicts))

/-- The conserved quantity of the specification's conservation invariant:
waste, plus total injected volume, plus what is left in the primary vial,
plus the leftover amount when the leftover is active. -/
def consLHS (s : SimState) : ℚ :=
  s.waste + s.consumed + s.left_in_vial +
    (if s.leftover_vial = true then s.leftover_amount else 0)

/-- The right-hand side of the conservation invariant, reading
`vialsUsed` as the spec does: vials opened so far including the currently
active one, i.e. `vials_used + 1`. -/
def consRHS (s : SimState) : ℚ := (s.vials_used + 1) * s.vial_volume

/-- Conservation deficit: how much volume has silently vanished. -/
def deficit (s : SimState) : ℚ := consRHS s - consLHS s

/-! ### Basic facts about the roster helpers -/

/-- Roster ordered largest dosage first, as produced by the constructor. -/
def DescSorted (l : List PersonDosage) : Prop :=
  List.Pairwise (fun a b => b.dosage ≤ a.dosage) l

/-- Frequency of `dosage_dicts[0]` (0 as default for the empty case). -/
def headFrequency (l : List PersonDosage) : ℤ :=
  match l.head? with
  | some p => p.frequency
  | none => 0

theorem headDosage_cons (a : PersonDosage) (t : List PersonDosage) :
    headDosage (a :: t) = a.dosage := rfl

theorem lastDosage_singleton (a : PersonDosage) :
    lastDosage [a] = a.dosage := rfl

theorem lastDosage_cons_cons (a b : PersonDosage) (t : List PersonDosage) :
    lastDosage (a :: b :: t) = lastDosage (b :: t) := by
  simp [lastDosage, List.getLast?_cons_cons]

theorem headDosage_ge_of_mem {l : List PersonDosage} (hs : DescSorted l)
    {p : PersonDosage} (hp : p ∈ l) : p.dosage ≤ headDosage l := by
  cases l with
  | nil => cases hp
  | cons a t =>
    rw [headDosage_cons]
    rcases List.mem_cons.mp hp with h | h
    · rw [h]
    · exact (List.pairwise_cons.mp hs).1 p h

theorem lastDosage_le_of_mem {l : List PersonDosage} (hs : DescSorted l) :
    ∀ p ∈ l, lastDosage l ≤ p.dosage := by
  induction l with
  | nil => intro p hp; cases hp
  | cons a t ih =>
    intro p hp
    cases t with
    | nil =>
      rcases List.mem_cons.mp hp with h | h
      · rw [h, lastDosage_singleton]
      · cases h
    | cons b t' =>
      rw [lastDosage_cons_cons]
      have hs' : DescSorted (b :: t') := (List.pairwise_cons.mp hs).2
      rcases List.mem_cons.mp hp with h | h
      · subst h
        have hb : lastDosage (b :: t') ≤ b.dosage :=
          ih hs' b (List.mem_cons_self b t')
        have hba : b.dosage ≤ p.dosage :=
          (List.pairwise_cons.mp hs).1 b (List.mem_cons_self b t')
        exact le_trans hb hba
      · exact ih hs' p h

theorem lastDosage_le_headDosage {l : List PersonDosage} (hs : DescSorted l)
    (hne : l ≠ []) : lastDosage l ≤ headDosage l := by
  cases l with
  | nil => exact absurd rfl hne
  | cons a t =>
    rw [headDosage_cons]
    exact lastDosage_le_of_mem hs a (List.mem_cons_self a t)

instance dosageGeTotal :
    IsTotal PersonDosage (fun a b => b.dosage ≤ a.dosage) :=
  ⟨fun a b => le_total b.dosage a.dosage⟩

instance dosageGeTrans :
    IsTrans PersonDosage (fun a b => b.dosage ≤ a.dosage) :=
  ⟨fun _ _ _ h1 h2 => le_trans h2 h1⟩

theorem mkDosageDicts_sorted (tp : ℕ) (ns : List String)
    (di : List (ℚ × ℤ)) : DescSorted (mkDosageDicts tp ns di) :=
  List.sorted_insertionSort
    (fun a b : PersonDosage => b.dosage ≤ a.dosage)
    ((List.range tp).map (fun i =>
      let rf := di.getD i (0, 0)
      { dosage := round2 (rf.1 * (rf.2 : ℚ)), frequency := rf.2,
        name := ns.getD i "" : PersonDosage }))

theorem mkDosageDicts_perm (tp : ℕ) (ns : List String) (di : List (ℚ × ℤ)) :
    (mkDosageDicts tp ns di).Perm ((List.range tp).map (fun i =>
      let rf := di.getD i (0, 0)
      { dosage := round2 (rf.1 * (rf.2 : ℚ)), frequency := rf.2,
        name := ns.getD i "" : PersonDosage })) :=
  List.perm_insertionSort _ _

theorem mkDosageDicts_length (tp : ℕ) (ns : List String) (di : List (ℚ × ℤ)) :
    (mkDosageDicts tp ns di).length = tp := by
  rw [(mkDosageDicts_perm tp ns di).length_eq]
  simp

/-! ### Step lemmas for do_injection -/

theorem do_injection_pres (s : SimState) (d : ℚ) :
    (do_injection s d).2.dosage_dicts = s.dosage_dicts ∧
    (do_injection s d).2.total_people = s.total_people ∧
    (do_injection s d).2.num_vials = s.num_vials ∧
    (do_injection s d).2.vial_volume = s.vial_volume ∧
    (do_injection s d).2.injections_handled = s.injections_handled ∧
    (do_injection s d).2.vials_used = s.vials_used ∧
    (do_injection s d).2.early_termination = s.early_termination ∧
    (do_injection s d).2.day = s.day := by
  unfold do_injection
  split
  · split <;> exact ⟨rfl, rfl, rfl, rfl, rfl, rfl, rfl, rfl⟩
  · split <;> exact ⟨rfl, rfl, rfl, rfl, rfl, rfl, rfl, rfl⟩

theorem do_injection_waste_mono (s : SimState) (d : ℚ) :
    s.waste ≤ (do_injection s d).2.waste := by
  unfold do_injection
  split
  · rename_i hlo
    split
    · simpa using hlo.2
    · simp
  · split <;> simp

theorem do_injection_left_nonneg (s : SimState) (d : ℚ)
    (h : 0 ≤ s.left_in_vial) : 0 ≤ (do_injection s d).2.left_in_vial := by
  unfold do_injection
  split
  · split <;> simpa using h
  · split
    · rename_i hp; simpa using hp
    · simpa using h

theorem do_injection_left_le (s : SimState) (d : ℚ) (hd : 0 ≤ d) :
    (do_injection s d).2.left_in_vial ≤ s.left_in_vial := by
  unfold do_injection
  split
  · split <;> simp
  · split
    · simpa using hd
    · simp

theorem do_injection_leftover_inv (s : SimState) (d : ℚ) (hd : 0 ≤ d)
    (hlo : s.leftover_vial = true →
      s.leftover_amount < headDosage s.dosage_dicts) :
    (do_injection s d).2.leftover_vial = true →
      (do_injection s d).2.leftover_amount <
        headDosage (do_injection s d).2.dosage_dicts := by
  unfold do_injection
  split
  · rename_i hg
    split
    · intro h; simp at h
    · intro _
      simp only
      have := hlo hg.1
      linarith
  · split
    · intro h; simp only at h ⊢; exact hlo h
    · intro h; exact hlo h

theorem do_injection_fst_true (s : SimState) (d : ℚ)
    (h : 0 ≤ s.left_in_vial - d) : (do_injection s d).1 = true := by
  unfold do_injection
  split
  · split <;> rfl
  · simp [h]

/-! ### Step lemmas for update_vials_used -/

theorem update_pres (s : SimState) :
    (update_vials_used s).dosage_dicts = s.dosage_dicts ∧
    (update_vials_used s).total_people = s.total_people ∧
    (update_vials_used s).num_vials = s.num_vials ∧
    (update_vials_used s).vial_volume = s.vial_volume ∧
    (update_vials_used s).injections_handled = s.injections_handled ∧
    (update_vials_used s).early_termination = s.early_termination ∧
    (update_vials_used s).day = s.day ∧
    (update_vials_used s).consumed = s.consumed := by
  unfold update_vials_used
  split
  · exact ⟨rfl, rfl, rfl, rfl, rfl, rfl, rfl, rfl⟩
  · split <;> exact ⟨rfl, rfl, rfl, rfl, rfl, rfl, rfl, rfl⟩

theorem update_waste_mono (s : SimState) (h : 0 ≤ s.left_in_vial) :
    s.waste ≤ (update_vials_used s).waste := by
  unfold update_vials_used
  split
  · simpa using h
  · split <;> simp

theorem update_vials_mono (s : SimState) :
    s.vials_used ≤ (update_vials_used s).vials_used := by
  unfold update_vials_used
  split
  · simp
  · split <;> simp

theorem update_left_nonneg (s : SimState) (h : 0 ≤ s.left_in_vial)
    (hV : 0 ≤ s.vial_volume) : 0 ≤ (update_vials_used s).left_in_vial := by
  unfold update_vials_used
  split
  · simpa using hV
  · split
    · simpa using hV
    · simpa using h

theorem update_left_le_volume (s : SimState) (h : s.left_in_vial ≤ s.vial_volume) :
    (update_vials_used s).left_in_vial ≤ (update_vials_used s).vial_volume := by
  unfold update_vials_used
  split
  · simp
  · split
    · simp
    · simpa using h

theorem update_left_ge_head (s : SimState)
    (hHV : headDosage s.dosage_dicts ≤ s.vial_volume) :
    headDosage (update_vials_used s).dosage_dicts ≤
      (update_vials_used s).left_in_vial := by
  unfold update_vials_used
  split
  · simpa using hHV
  · rename_i h1
    split
    · simpa using hHV
    · rename_i h2
      push_neg at h1 h2
      exact h2 h1

theorem update_leftover_inv (s : SimState)
    (hlo : s.leftover_vial = true →
      s.leftover_amount < headDosage s.dosage_dicts) :
    (update_vials_used s).leftover_vial = true →
      (update_vials_used s).leftover_amount <
        headDosage (update_vials_used s).dosage_dicts := by
  unfold update_vials_used
  split
  · intro h; simp only at h ⊢; exact hlo h
  · split
    · rename_i h2
      intro _
      simp only
      exact h2.2
    · intro h; exact hlo h

theorem update_noop_of_vials_eq (s : SimState)
    (h : (update_vials_used s).vials_used = s.vials_used) :
    update_vials_used s = s := by
  unfold update_vials_used at h ⊢
  split at h
  · simp only at h; omega
  · split at h
    · simp only at h; omega
    · rename_i h1 h2
      rw [if_neg h1, if_neg h2]

/-! ### Lemmas about one pass of the for loop -/

theorem pass_go_nil (hs : List Bool) (s : SimState) :
    pass_go [] hs s = ([], s) := by
  cases hs <;> rfl

theorem pass_go_cons_nil (p : PersonDosage) (ps : List PersonDosage)
    (s : SimState) : pass_go (p :: ps) [] s = ([], s) := rfl

theorem pass_go_cons_cons (p : PersonDosage) (ps : List PersonDosage)
    (h : Bool) (hs : List Bool) (s : SimState) :
    pass_go (p :: ps) (h :: hs) s =
      if ((s.day : ℤ) % p.frequency = 0) ∧ h = false then
        ((do_injection s p.dosage).1 ::
          (pass_go ps hs (do_injection s p.dosage).2).1,
         (pass_go ps hs (do_injection s p.dosage).2).2)
      else
        (true :: (pass_go ps hs s).1, (pass_go ps hs s).2) := rfl

theorem pass_go_pres (ps : List PersonDosage) :
    ∀ (hs : List Bool) (s : SimState),
    (pass_go ps hs s).2.dosage_dicts = s.dosage_dicts ∧
    (pass_go ps hs s).2.total_people = s.total_people ∧
    (pass_go ps hs s).2.num_vials = s.num_vials ∧
    (pass_go ps hs s).2.vial_volume = s.vial_volume ∧
    (pass_go ps hs s).2.injections_handled = s.injections_handled ∧
    (pass_go ps hs s).2.vials_used = s.vials_used ∧
    (pass_go ps hs s).2.early_termination = s.early_termination ∧
    (pass_go ps hs s).2.day = s.day := by
  induction ps with
  | nil =>
    intro hs s
    rw [pass_go_nil]
    exact ⟨rfl, rfl, rfl, rfl, rfl, rfl, rfl, rfl⟩
  | cons p ps ih =>
    intro hs s
    cases hs with
    | nil =>
      rw [pass_go_cons_nil]
      exact ⟨rfl, rfl, rfl, rfl, rfl, rfl, rfl, rfl⟩
    | cons h hs =>
      rw [pass_go_cons_cons]
      split
      · obtain ⟨i1, i2, i3, i4, i5, i6, i7, i8⟩ :=
          ih hs (do_injection s p.dosage).2
        obtain ⟨d1, d2, d3, d4, d5, d6, d7, d8⟩ := do_injection_pres s p.dosage
        exact ⟨i1.trans d1, i2.trans d2, i3.trans d3, i4.trans d4,
               i5.trans d5, i6.trans d6, i7.trans d7, i8.trans d8⟩
      · exact ih hs s

theorem pass_go_waste_mono (ps : List PersonDosage) :
    ∀ (hs : List Bool) (s : SimState),
    s.waste ≤ (pass_go ps hs s).2.waste := by
  induction ps with
  | nil => intro hs s; rw [pass_go_nil]
  | cons p ps ih =>
    intro hs s
    cases hs with
    | nil => rw [pass_go_cons_nil]
    | cons h hs =>
      rw [pass_go_cons_cons]
      split
      · exact le_trans (do_injection_waste_mono s p.dosage)
          (ih hs (do_injection s p.dosage).2)
      · exact ih hs s

theorem pass_go_left_nonneg (ps : List PersonDosage) :
    ∀ (hs : List Bool) (s : SimState), 0 ≤ s.left_in_vial →
    0 ≤ (pass_go ps hs s).2.left_in_vial := by
  induction ps with
  | nil => intro hs s h; rw [pass_go_nil]; exact h
  | cons p ps ih =>
    intro hs s h
    cases hs with
    | nil => rw [pass_go_cons_nil]; exact h
    | cons hd hs =>
      rw [pass_go_cons_cons]
      split
      · exact ih hs _ (do_injection_left_nonneg s p.dosage h)
      · exact ih hs s h

theorem pass_go_left_le (ps : List PersonDosage) :
    ∀ (hs : List Bool) (s : SimState), (∀ p ∈ ps, 0 ≤ p.dosage) →
    (pass_go ps hs s).2.left_in_vial ≤ s.left_in_vial := by
  induction ps with
  | nil => intro hs s _; rw [pass_go_nil]
  | cons p ps ih =>
    intro hs s hd
    cases hs with
    | nil => rw [pass_go_cons_nil]
    | cons hd0 hs =>
      rw [pass_go_cons_cons]
      split
      · refine le_trans (ih hs _ (fun q hq => hd q (List.mem_cons_of_mem p hq))) ?_
        exact do_injection_left_le s p.dosage (hd p (List.mem_cons_self p ps))
      · exact ih hs s (fun q hq => hd q (List.mem_cons_of_mem p hq))

theorem pass_go_leftover_inv (ps : List PersonDosage) :
    ∀ (hs : List Bool) (s : SimState), (∀ p ∈ ps, 0 ≤ p.dosage) →
    (s.leftover_vial = true → s.leftover_amount < headDosage s.dosage_dicts) →
    ((pass_go ps hs s).2.leftover_vial = true →
      (pass_go ps hs s).2.leftover_amount <
        headDosage (pass_go ps hs s).2.dosage_dicts) := by
  induction ps with
  | nil => intro hs s _ hlo; rw [pass_go_nil]; exact hlo
  | cons p ps ih =>
    intro hs s hd hlo
    cases hs with
    | nil => rw [pass_go_cons_nil]; exact hlo
    | cons hd0 hs =>
      rw [pass_go_cons_cons]
      split
      · have hstep := do_injection_leftover_inv s p.dosage
          (hd p (List.mem_cons_self p ps)) hlo
        exact ih hs _ (fun q hq => hd q (List.mem_cons_of_mem p hq)) hstep
      · exact ih hs s (fun q hq => hd q (List.mem_cons_of_mem p hq)) hlo

theorem pass_go_count_le (ps : List PersonDosage) :
    ∀ (hs : List Bool) (s : SimState),
    (pass_go ps hs s).1.count false ≤ hs.count false := by
  induction ps with
  | nil => intro hs s; rw [pass_go_nil]; simp
  | cons p ps ih =>
    intro hs s
    cases hs with
    | nil => rw [pass_go_cons_nil]
    | cons h hs =>
      rw [pass_go_cons_cons]
      split
      · rename_i hc
        have hrec := ih hs (do_injection s p.dosage).2
        rw [hc.2]
        cases (do_injection s p.dosage).1 <;>
          simp only [List.count_cons] <;> simp <;> omega
      · have hrec := ih hs s
        cases h <;> simp only [List.count_cons] <;> simp <;> omega

theorem pass_go_length (ps : List PersonDosage) :
    ∀ (hs : List Bool) (s : SimState),
    (pass_go ps hs s).1.length = min ps.length hs.length := by
  induction ps with
  | nil => intro hs s; rw [pass_go_nil]; simp
  | cons p ps ih =>
    intro hs s
    cases hs with
    | nil => rw [pass_go_cons_nil]; simp
    | cons h hs =>
      rw [pass_go_cons_cons]
      split
      · simp only [List.length_cons, ih hs]
        omega
      · simp only [List.length_cons, ih hs]
        omega

theorem do_injection_left_eq (s : SimState) (d : ℚ)
    (hlo : s.leftover_vial = true → s.leftover_amount < d)
    (h2 : 0 ≤ s.left_in_vial - d) :
    (do_injection s d).2.left_in_vial = s.left_in_vial - d := by
  have hg : ¬(s.leftover_vial = true ∧ 0 ≤ s.leftover_amount - d) := by
    rintro ⟨ha, hb⟩
    have := hlo ha
    linarith
  unfold do_injection
  rw [if_neg hg, if_pos h2]

theorem pass_go_count_lt (ps : List PersonDosage) :
    ∀ (hs : List Bool) (s : SimState),
    hs.length = ps.length → false ∈ hs →
    (∀ p ∈ ps, p.dosage ≤ headDosage s.dosage_dicts) →
    headDosage s.dosage_dicts ≤ s.left_in_vial →
    (pass_go ps hs s).1.count false < hs.count false := by
  induction ps with
  | nil =>
    intro hs s hlen hmem _ _
    rw [List.length_nil, List.length_eq_zero] at hlen
    subst hlen
    cases hmem
  | cons p ps ih =>
    intro hs s hlen hmem hscope hleft
    cases hs with
    | nil => cases hmem
    | cons h hs =>
      rw [pass_go_cons_cons]
      split
      · rename_i hc
        have hsucc : (do_injection s p.dosage).1 = true := by
          apply do_injection_fst_true
        -- p.dosage ≤ headDosage ≤ left_in_vial
          have := hscope p (List.mem_cons_self p ps)
          linarith
        rw [hsucc, hc.2]
        have hrest := pass_go_count_le ps hs (do_injection s p.dosage).2
        simp only [List.count_cons]
        simp
        omega
      · rename_i hc
        cases h with
        | false =>
          have hrest := pass_go_count_le ps hs s
          simp only [List.count_cons]
          simp
          omega
        | true =>
          have hmem' : false ∈ hs := by
            rcases List.mem_cons.mp hmem with h' | h'
            · cases h'
            · exact h'
          have hlen' : hs.length = ps.length := by
            simpa using hlen
          have := ih hs s hlen'
            hmem' (fun q hq => hscope q (List.mem_cons_of_mem p hq)) hleft
          simp only [List.count_cons]
          simp
          omega

theorem pass_go_head_due (p : PersonDosage) (ps : List PersonDosage)
    (hs : List Bool) (s : SimState)
    (hdue : (s.day : ℤ) % p.frequency = 0)
    (hd : p.dosage = headDosage s.dosage_dicts)
    (hlo : s.leftover_vial = true →
      s.leftover_amount < headDosage s.dosage_dicts)
    (hleft : headDosage s.dosage_dicts ≤ s.left_in_vial)
    (hrest : ∀ q ∈ ps, 0 ≤ q.dosage) :
    (pass_go (p :: ps) (false :: hs) s).2.left_in_vial ≤
      s.left_in_vial - headDosage s.dosage_dicts := by
  rw [pass_go_cons_cons, if_pos ⟨hdue, rfl⟩]
  have heq : (do_injection s p.dosage).2.left_in_vial =
      s.left_in_vial - p.dosage := by
    apply do_injection_left_eq
    · intro ha; rw [hd]; exact hlo ha
    · rw [hd]; linarith
  calc (pass_go ps hs (do_injection s p.dosage).2).2.left_in_vial
      ≤ (do_injection s p.dosage).2.left_in_vial :=
        pass_go_left_le ps hs _ hrest
    _ = s.left_in_vial - p.dosage := heq
    _ = s.left_in_vial - headDosage s.dosage_dicts := by rw [hd]

/-! ### The validity invariant carried through a run -/

/-- Invariant holding at every state reached by a valid trial. -/
def StateOK (s : SimState) : Prop :=
  s.dosage_dicts ≠ [] ∧
  DescSorted s.dosage_dicts ∧
  s.total_people = s.dosage_dicts.length ∧
  headDosage s.dosage_dicts ≤ s.vial_volume ∧
  0 < lastDosage s.dosage_dicts ∧
  0 ≤ s.left_in_vial ∧
  s.left_in_vial ≤ s.vial_volume ∧
  (s.leftover_vial = true → s.leftover_amount < headDosage s.dosage_dicts)

theorem StateOK.dosage_pos {s : SimState} (h : StateOK s) :
    ∀ p ∈ s.dosage_dicts, 0 < p.dosage := by
  intro p hp
  exact lt_of_lt_of_le h.2.2.2.2.1 (lastDosage_le_of_mem h.2.1 p hp)

theorem StateOK.dosage_le_head {s : SimState} (h : StateOK s) :
    ∀ p ∈ s.dosage_dicts, p.dosage ≤ headDosage s.dosage_dicts := by
  intro p hp
  exact headDosage_ge_of_mem h.2.1 hp

theorem StateOK.head_pos {s : SimState} (h : StateOK s) :
    0 < headDosage s.dosage_dicts := by
  rcases hne : s.dosage_dicts with _ | ⟨a, t⟩
  · exact absurd hne h.1
  · have := h.dosage_pos a (by rw [hne]; exact List.mem_cons_self a t)
    rw [headDosage_cons]
    exact this

theorem StateOK.volume_pos {s : SimState} (h : StateOK s) :
    0 < s.vial_volume := lt_of_lt_of_le h.head_pos h.2.2.2.1

theorem inner_loop_run : ∀ (fuel : ℕ) (s : SimState), StateOK s →
    headDosage s.dosage_dicts ≤ s.left_in_vial →
    s.injections_handled.length = s.dosage_dicts.length →
    s.injections_handled.count false ≤ fuel →
    ∃ s', inner_loop fuel s = some s' ∧
      s'.dosage_dicts = s.dosage_dicts ∧ s'.total_people = s.total_people ∧
      s'.num_vials = s.num_vials ∧ s'.vial_volume = s.vial_volume ∧
      s'.early_termination = s.early_termination ∧ s'.day = s.day ∧
      StateOK s' ∧ headDosage s'.dosage_dicts ≤ s'.left_in_vial ∧
      s.vials_used ≤ s'.vials_used ∧
      (s'.vials_used = s.vials_used → s'.left_in_vial ≤ s.left_in_vial) := by
  intro fuel
  induction fuel with
  | zero =>
    intro s hok hleft hlen hcount
    have hnomem : false ∉ s.injections_handled := by
      intro hmem
      have := List.count_pos_iff.mpr hmem
      omega
    refine ⟨s, ?_, rfl, rfl, rfl, rfl, rfl, rfl, hok, hleft, le_refl _,
      fun _ => le_refl _⟩
    unfold inner_loop
    rw [if_neg hnomem]
  | succ fuel ih =>
    intro s hok hleft hlen hcount
    by_cases hmem : false ∈ s.injections_handled
    · -- one more pass happens
      set p := inner_pass s with hp
      set s2 := update_vials_used p with hs2
      obtain ⟨g1, g2, g3, g4, g5, g6, g7, g8⟩ :=
        pass_go_pres s.dosage_dicts s.injections_handled s
      have hpdicts : p.dosage_dicts = s.dosage_dicts := g1
      have hptp : p.total_people = s.total_people := g2
      have hpnv : p.num_vials = s.num_vials := g3
      have hpV : p.vial_volume = s.vial_volume := g4
      have hpvials : p.vials_used = s.vials_used := g6
      have hpearly : p.early_termination = s.early_termination := g7
      have hpday : p.day = s.day := g8
      have hdpos : ∀ q ∈ s.dosage_dicts, 0 ≤ q.dosage :=
        fun q hq => le_of_lt (hok.dosage_pos q hq)
      have hpleft_le : p.left_in_vial ≤ s.left_in_vial :=
        pass_go_left_le s.dosage_dicts s.injections_handled s hdpos
      have hpleft_nonneg : 0 ≤ p.left_in_vial :=
        pass_go_left_nonneg s.dosage_dicts s.injections_handled s hok.2.2.2.2.2.1
      have hplo : p.leftover_vial = true →
          p.leftover_amount < headDosage p.dosage_dicts :=
        pass_go_leftover_inv s.dosage_dicts s.injections_handled s hdpos
          hok.2.2.2.2.2.2.2
      have hphandled : p.injections_handled =
          (pass_go s.dosage_dicts s.injections_handled s).1 := rfl
      have hpcount : p.injections_handled.count false <
          s.injections_handled.count false := by
        rw [hphandled]
        exact pass_go_count_lt s.dosage_dicts s.injections_handled s hlen hmem
          hok.dosage_le_head hleft
      have hplen : p.injections_handled.length = p.dosage_dicts.length := by
        rw [hphandled, hpdicts, pass_go_length, hlen]
        simp
      -- now the update step
      obtain ⟨u1, u2, u3, u4, u5, u6, u7, u8⟩ := update_pres p
      have hs2dicts : s2.dosage_dicts = s.dosage_dicts := u1.trans hpdicts
      have hs2tp : s2.total_people = s.total_people := u2.trans hptp
      have hs2nv : s2.num_vials = s.num_vials := u3.trans hpnv
      have hs2V : s2.vial_volume = s.vial_volume := u4.trans hpV
      have hs2early : s2.early_termination = s.early_termination :=
        u6.trans hpearly
      have hs2day : s2.day = s.day := u7.trans hpday
      have hs2handled : s2.injections_handled = p.injections_handled := u5
      have hpok : StateOK p := by
        refine ⟨?_, ?_, ?_, ?_, ?_, hpleft_nonneg, ?_, hplo⟩
        · rw [hpdicts]; exact hok.1
        · rw [hpdicts]; exact hok.2.1
        · rw [hptp, hpdicts]; exact hok.2.2.1
        · rw [hpdicts, hpV]; exact hok.2.2.2.1
        · rw [hpdicts]; exact hok.2.2.2.2.1
        · rw [hpV]; exact le_trans hpleft_le hok.2.2.2.2.2.2.1
      have hs2ok : StateOK s2 := by
        refine ⟨?_, ?_, ?_, ?_, ?_, ?_, ?_, ?_⟩
        · rw [hs2dicts]; exact hok.1
        · rw [hs2dicts]; exact hok.2.1
        · rw [hs2tp, hs2dicts]; exact hok.2.2.1
        · rw [hs2dicts, hs2V]; exact hok.2.2.2.1
        · rw [hs2dicts]; exact hok.2.2.2.2.1
        · exact update_left_nonneg p hpleft_nonneg
            (by rw [hpV]; exact le_of_lt hok.volume_pos)
        · exact update_left_le_volume p hpok.2.2.2.2.2.2.1
        · exact update_leftover_inv p hplo
      have hs2left : headDosage s2.dosage_dicts ≤ s2.left_in_vial := by
        have := update_left_ge_head p hpok.2.2.2.1
        rw [u1, hpdicts] at this
        rw [hs2dicts]
        exact this
      have hs2count : s2.injections_handled.count false ≤ fuel := by
        rw [hs2handled]
        omega
      have hs2len : s2.injections_handled.length = s2.dosage_dicts.length := by
        rw [hs2handled, hs2dicts, hplen, hpdicts]
      obtain ⟨s', hrun, e1, e2, e3, e4, e5, e6, hok', hleft', hvmono, hvleft⟩ :=
        ih s2 hs2ok hs2left hs2len hs2count
      refine ⟨s', ?_, e1.trans hs2dicts, e2.trans hs2tp, e3.trans hs2nv,
        e4.trans hs2V, e5.trans hs2early, e6.trans hs2day, hok', hleft', ?_, ?_⟩
      · show inner_loop (fuel + 1) s = some s'
        unfold inner_loop
        rw [if_pos hmem]
        exact hrun
      · calc s.vials_used = p.vials_used := hpvials.symm
          _ ≤ s2.vials_used := update_vials_mono p
          _ ≤ s'.vials_used := hvmono
      · intro hveq
        have hv2 : s2.vials_used = p.vials_used := by
          have h1 : p.vials_used ≤ s2.vials_used := update_vials_mono p
          have : s'.vials_used = s.vials_used := hveq
          omega
        have hnoop : update_vials_used p = p := update_noop_of_vials_eq p hv2
        have hs'p : s'.left_in_vial ≤ s2.left_in_vial := by
          apply hvleft
          omega
        calc s'.left_in_vial ≤ s2.left_in_vial := hs'p
          _ = p.left_in_vial := by rw [hs2, hnoop]
          _ ≤ s.left_in_vial := hpleft_le
    · refine ⟨s, ?_, rfl, rfl, rfl, rfl, rfl, rfl, hok, hleft, le_refl _,
        fun _ => le_refl _⟩
      unfold inner_loop
      rw [if_neg hmem]

theorem dayStep_run (s : SimState) (hok : StateOK s)
    (hleft : headDosage s.dosage_dicts ≤ s.left_in_vial) :
    ∃ s', dayStep s = some s' ∧
      s'.dosage_dicts = s.dosage_dicts ∧ s'.total_people = s.total_people ∧
      s'.num_vials = s.num_vials ∧ s'.vial_volume = s.vial_volume ∧
      s'.early_termination = s.early_termination ∧ s'.day = s.day + 1 ∧
      StateOK s' ∧ headDosage s'.dosage_dicts ≤ s'.left_in_vial ∧
      s.vials_used ≤ s'.vials_used ∧
      (s'.vials_used = s.vials_used →
        s'.left_in_vial ≤ s.left_in_vial ∧
        ((s.day : ℤ) % headFrequency s.dosage_dicts = 0 →
          s'.left_in_vial ≤ s.left_in_vial - headDosage s.dosage_dicts)) := by
  obtain ⟨m, hm⟩ : ∃ m, s.total_people = m + 1 := by
    rcases hd : s.dosage_dicts with _ | ⟨a, t⟩
    · exact absurd hd hok.1
    · refine ⟨t.length, ?_⟩
      rw [hok.2.2.1, hd]
      rfl
  set s1 : SimState :=
    { s with injections_handled := List.replicate s.total_people false }
    with hs1
  have hs1ok : StateOK s1 := hok
  have hs1mem : false ∈ s1.injections_handled := by
    show false ∈ List.replicate s.total_people false
    rw [hm]
    simp
  -- one pass plus update, then the remaining inner loop
  set p := inner_pass s1 with hp
  set s2 := update_vials_used p with hs2d
  obtain ⟨g1, g2, g3, g4, g5, g6, g7, g8⟩ :=
    pass_go_pres s1.dosage_dicts s1.injections_handled s1
  have hdpos : ∀ q ∈ s1.dosage_dicts, 0 ≤ q.dosage :=
    fun q hq => le_of_lt (hs1ok.dosage_pos q hq)
  have hpleft_le : p.left_in_vial ≤ s.left_in_vial :=
    pass_go_left_le s1.dosage_dicts s1.injections_handled s1 hdpos
  have hpleft_nonneg : 0 ≤ p.left_in_vial :=
    pass_go_left_nonneg s1.dosage_dicts s1.injections_handled s1
      hs1ok.2.2.2.2.2.1
  have hplo : p.leftover_vial = true →
      p.leftover_amount < headDosage p.dosage_dicts :=
    pass_go_leftover_inv s1.dosage_dicts s1.injections_handled s1 hdpos
      hs1ok.2.2.2.2.2.2.2
  have hs1len : s1.injections_handled.length = s1.dosage_dicts.length := by
    show (List.replicate s.total_people false).length = s.dosage_dicts.length
    rw [List.length_replicate, hok.2.2.1]
  have hpcount : p.injections_handled.count false <
      s1.injections_handled.count false :=
    pass_go_count_lt s1.dosage_dicts s1.injections_handled s1 hs1len hs1mem
      hs1ok.dosage_le_head hleft
  have hs1count : s1.injections_handled.count false = s.total_people := by
    show (List.replicate s.total_people false).count false = _
    simp
  have hplen : p.injections_handled.length = p.dosage_dicts.length := by
    show (pass_go s1.dosage_dicts s1.injections_handled s1).1.length = _
    rw [pass_go_length, hs1len]
    show min _ _ = (pass_go s1.dosage_dicts s1.injections_handled s1).2.dosage_dicts.length
    rw [g1]
    simp
  have hpok : StateOK p := by
    refine ⟨?_, ?_, ?_, ?_, ?_, hpleft_nonneg, ?_, hplo⟩
    · rw [show p.dosage_dicts = s.dosage_dicts from g1]; exact hok.1
    · rw [show p.dosage_dicts = s.dosage_dicts from g1]; exact hok.2.1
    · rw [show p.total_people = s.total_people from g2,
          show p.dosage_dicts = s.dosage_dicts from g1]
      exact hok.2.2.1
    · rw [show p.dosage_dicts = s.dosage_dicts from g1,
          show p.vial_volume = s.vial_volume from g4]
      exact hok.2.2.2.1
    · rw [show p.dosage_dicts = s.dosage_dicts from g1]; exact hok.2.2.2.2.1
    · rw [show p.vial_volume = s.vial_volume from g4]
      exact le_trans hpleft_le hok.2.2.2.2.2.2.1
  obtain ⟨u1, u2, u3, u4, u5, u6, u7, u8⟩ := update_pres p
  have hs2ok : StateOK s2 := by
    refine ⟨?_, ?_, ?_, ?_, ?_, ?_, ?_, ?_⟩
    · rw [show s2.dosage_dicts = p.dosage_dicts from u1]; exact hpok.1
    · rw [show s2.dosage_dicts = p.dosage_dicts from u1]; exact hpok.2.1
    · rw [show s2.total_people = p.total_people from u2,
          show s2.dosage_dicts = p.dosage_dicts from u1]
      exact hpok.2.2.1
    · rw [show s2.dosage_dicts = p.dosage_dicts from u1,
          show s2.vial_volume = p.vial_volume from u4]
      exact hpok.2.2.2.1
    · rw [show s2.dosage_dicts = p.dosage_dicts from u1]; exact hpok.2.2.2.2.1
    · exact update_left_nonneg p hpleft_nonneg (le_of_lt hpok.volume_pos)
    · exact update_left_le_volume p hpok.2.2.2.2.2.2.1
    · exact update_leftover_inv p hplo
  have hs2left : headDosage s2.dosage_dicts ≤ s2.left_in_vial := by
    have := update_left_ge_head p hpok.2.2.2.1
    exact this
  have hs2count : s2.injections_handled.count false ≤ m := by
    have : s2.injections_handled = p.injections_handled := u5
    rw [this]
    omega
  have hs2len : s2.injections_handled.length = s2.dosage_dicts.length := by
    rw [show s2.injections_handled = p.injections_handled from u5,
        show s2.dosage_dicts = p.dosage_dicts from u1]
    exact hplen
  obtain ⟨s', hrun, e1, e2, e3, e4, e5, e6, hok', hleft', hvmono, hvleft⟩ :=
    inner_loop_run m s2 hs2ok hs2left hs2len hs2count
  have hfull : inner_loop s.total_people s1 = some s' := by
    rw [hm]
    unfold inner_loop
    rw [if_pos hs1mem]
    exact hrun
  have hpdicts : p.dosage_dicts = s.dosage_dicts := g1
  have hptp : p.total_people = s.total_people := g2
  have hpnv : p.num_vials = s.num_vials := g3
  have hpV : p.vial_volume = s.vial_volume := g4
  have hpvials : p.vials_used = s.vials_used := g6
  have hpearly : p.early_termination = s.early_termination := g7
  have hpday : p.day = s.day := g8
  refine ⟨{ s' with day := s'.day + 1 }, ?_, ?_, ?_, ?_, ?_, ?_, ?_, ?_, ?_,
    ?_, ?_⟩
  · unfold dayStep
    rw [hfull]
  · show s'.dosage_dicts = s.dosage_dicts
    rw [e1, show s2.dosage_dicts = p.dosage_dicts from u1, hpdicts]
  · show s'.total_people = s.total_people
    rw [e2, show s2.total_people = p.total_people from u2, hptp]
  · show s'.num_vials = s.num_vials
    rw [e3, show s2.num_vials = p.num_vials from u3, hpnv]
  · show s'.vial_volume = s.vial_volume
    rw [e4, show s2.vial_volume = p.vial_volume from u4, hpV]
  · show s'.early_termination = s.early_termination
    rw [e5, show s2.early_termination = p.early_termination from u6, hpearly]
  · show s'.day + 1 = s.day + 1
    rw [e6, show s2.day = p.day from u7, hpday]
  · exact ⟨hok'.1, hok'.2.1, hok'.2.2.1, hok'.2.2.2.1, hok'.2.2.2.2.1,
      hok'.2.2.2.2.2.1, hok'.2.2.2.2.2.2.1, hok'.2.2.2.2.2.2.2⟩
  · exact hleft'
  · show s.vials_used ≤ s'.vials_used
    calc s.vials_used = p.vials_used := hpvials.symm
      _ ≤ s2.vials_used := update_vials_mono p
      _ ≤ s'.vials_used := hvmono
  · intro hveq
    have hveq' : s'.vials_used = s.vials_used := hveq
    have hv2 : s2.vials_used = p.vials_used := by
      have h1 : p.vials_used ≤ s2.vials_used := update_vials_mono p
      omega
    have hnoop : update_vials_used p = p := update_noop_of_vials_eq p hv2
    have hs'p : s'.left_in_vial ≤ s2.left_in_vial := by
      apply hvleft
      omega
    have hs2p : s2.left_in_vial = p.left_in_vial := by rw [hs2d, hnoop]
    constructor
    · show s'.left_in_vial ≤ s.left_in_vial
      calc s'.left_in_vial ≤ s2.left_in_vial := hs'p
        _ = p.left_in_vial := hs2p
        _ ≤ s.left_in_vial := hpleft_le
    · intro hdue
      -- person 0 is due: the first pass consumes the maximum dosage
      obtain ⟨a, t, hd⟩ : ∃ a t, s.dosage_dicts = a :: t := by
        rcases hx : s.dosage_dicts with _ | ⟨a, t⟩
        · exact absurd hx hok.1
        · exact ⟨a, t, rfl⟩
      have hdrop : p.left_in_vial ≤
          s.left_in_vial - headDosage s.dosage_dicts := by
        have hfreq : headFrequency s.dosage_dicts = a.frequency := by
          rw [hd]; rfl
        have hdue' : ((s1.day : ℤ) % a.frequency = 0) := by
          show ((s.day : ℤ) % a.frequency = 0)
          rw [← hfreq]
          exact hdue
        have hhh : s1.injections_handled =
            false :: List.replicate m false := by
          show List.replicate s.total_people false = _
          rw [hm]
          rfl
        have hgoal := pass_go_head_due a t (List.replicate m false) s1 hdue'
          (by show a.dosage = headDosage s.dosage_dicts
              rw [hd, headDosage_cons])
          hs1ok.2.2.2.2.2.2.2 hleft
          (fun q hq => by
            apply hdpos
            show q ∈ s.dosage_dicts
            rw [hd]
            exact List.mem_cons_of_mem a hq)
        have hpe : p.left_in_vial =
            (pass_go (a :: t) (false :: List.replicate m false) s1).2.left_in_vial := by
          show (pass_go s1.dosage_dicts s1.injections_handled s1).2.left_in_vial = _
          rw [show s1.dosage_dicts = a :: t from hd, hhh]
        rw [hpe]
        exact hgoal
      show s'.left_in_vial ≤ s.left_in_vial - headDosage s.dosage_dicts
      calc s'.left_in_vial ≤ s2.left_in_vial := hs'p
        _ = p.left_in_vial := hs2p
        _ ≤ s.left_in_vial - headDosage s.dosage_dicts := hdrop

/-! ### Termination measure for the outer day loop -/

/-- Absolute value of the highest-dose person's injection interval. -/
def fZero (s : SimState) : ℕ := (headFrequency s.dosage_dicts).natAbs

/-- Days until the highest-dose person is next due. -/
def phase (s : SimState) : ℕ := (fZero s - s.day % fZero s) % fZero s

/-- How many maximum doses still fit in the primary vial. -/
def tlevel (s : SimState) : ℕ :=
  (⌊s.left_in_vial / headDosage s.dosage_dicts⌋).toNat

/-- Bound on days until the next vial is consumed. -/
def nuMeasure (s : SimState) : ℕ := (tlevel s + 1) * fZero s + phase s

/-- Uniform bound on `nuMeasure` along a run. -/
def bBound (s : SimState) : ℕ :=
  ((⌊s.vial_volume / headDosage s.dosage_dicts⌋).toNat + 2) * fZero s

/-- Termination measure: strictly decreases with every processed day while
the vial target has not been reached. -/
def muMeasure (s : SimState) : ℕ :=
  (s.num_vials - s.vials_used).toNat * bBound s + nuMeasure s

theorem nu_lt_bBound (s : SimState) (hok : StateOK s) (hF : 0 < fZero s) :
    nuMeasure s < bBound s := by
  have hhead : 0 < headDosage s.dosage_dicts := hok.head_pos
  have ht : tlevel s ≤ (⌊s.vial_volume / headDosage s.dosage_dicts⌋).toNat := by
    apply Int.toNat_le_toNat
    apply Int.floor_le_floor
    gcongr
    exact hok.2.2.2.2.2.2.1
  have hp : phase s < fZero s := Nat.mod_lt _ hF
  unfold nuMeasure bBound
  set T := (⌊s.vial_volume / headDosage s.dosage_dicts⌋).toNat
  set t := tlevel s
  set F := fZero s
  set p := phase s
  calc (t + 1) * F + p ≤ (T + 1) * F + p := by
        apply Nat.add_le_add_right
        exact Nat.mul_le_mul_right F (by omega)
    _ < (T + 1) * F + F := by omega
    _ = (T + 2) * F := by ring

theorem due_iff (s : SimState) :
    ((s.day : ℤ) % headFrequency s.dosage_dicts = 0) ↔
      s.day % fZero s = 0 := by
  unfold fZero
  constructor
  · intro h
    have hdvd : headFrequency s.dosage_dicts ∣ (s.day : ℤ) :=
      Int.dvd_of_emod_eq_zero h
    have hdvd2 : ((headFrequency s.dosage_dicts).natAbs : ℤ) ∣ (s.day : ℤ) :=
      (Int.natAbs_dvd).mpr hdvd
    have hdvd3 : (headFrequency s.dosage_dicts).natAbs ∣ s.day :=
      Int.ofNat_dvd.mp hdvd2
    exact Nat.mod_eq_zero_of_dvd hdvd3
  · intro h
    have hdvd : (headFrequency s.dosage_dicts).natAbs ∣ s.day :=
      Nat.dvd_of_mod_eq_zero h
    have hdvd2 : ((headFrequency s.dosage_dicts).natAbs : ℤ) ∣ (s.day : ℤ) :=
      Int.ofNat_dvd.mpr hdvd
    have hdvd3 : headFrequency s.dosage_dicts ∣ (s.day : ℤ) :=
      (Int.natAbs_dvd).mp hdvd2
    exact Int.emod_eq_zero_of_dvd hdvd3

theorem phase_succ (F d : ℕ) (hF : 0 < F) (hnd : d % F ≠ 0) :
    (F - (d + 1) % F) % F = (F - d % F) % F - 1 ∧ 0 < (F - d % F) % F := by
  have hr : d % F < F := Nat.mod_lt _ hF
  have hr0 : 0 < d % F := Nat.pos_of_ne_zero hnd
  have hF2 : 2 ≤ F := by omega
  have h1F : 1 % F = 1 := Nat.mod_eq_of_lt (by omega)
  have hsucc : (d + 1) % F = (d % F + 1) % F := by
    conv_lhs => rw [Nat.add_mod, h1F]
  have hph : (F - d % F) % F = F - d % F := Nat.mod_eq_of_lt (by omega)
  by_cases hc : d % F + 1 = F
  · have : (d % F + 1) % F = 0 := by rw [hc, Nat.mod_self]
    rw [hsucc, this, Nat.sub_zero, Nat.mod_self, hph]
    omega
  · have hlt : d % F + 1 < F := by omega
    have : (d % F + 1) % F = d % F + 1 := Nat.mod_eq_of_lt hlt
    rw [hsucc, this, hph, Nat.mod_eq_of_lt (by omega : F - (d % F + 1) < F)]
    omega

theorem tlevel_drop (x y h : ℚ) (hh : 0 < h) (hy : 0 ≤ y)
    (hxy : y ≤ x - h) :
    (⌊y / h⌋).toNat + 1 ≤ (⌊x / h⌋).toNat := by
  have h0 : (0 : ℤ) ≤ ⌊y / h⌋ := Int.floor_nonneg.mpr (div_nonneg hy hh.le)
  have hdiv : y / h ≤ x / h - 1 := by
    have : (x - h) / h = x / h - 1 := by
      rw [sub_div, div_self hh.ne']
    rw [← this]
    gcongr
  have hfl : ⌊y / h⌋ ≤ ⌊x / h⌋ - 1 := by
    have h2 : ⌊y / h⌋ ≤ ⌊x / h - 1⌋ := Int.floor_le_floor hdiv
    have h3 : ⌊x / h - 1⌋ = ⌊x / h⌋ - 1 := by
      have h4 := Int.floor_sub_int (x / h) 1
      simp only [Int.cast_one] at h4
      exact h4
    omega
  omega

theorem tlevel_mono (x y h : ℚ) (hh : 0 < h) (hxy : y ≤ x) :
    (⌊y / h⌋).toNat ≤ (⌊x / h⌋).toNat := by
  apply Int.toNat_le_toNat
  apply Int.floor_le_floor
  gcongr

theorem outer_run : ∀ (n : ℕ) (s : SimState), StateOK s →
    headDosage s.dosage_dicts ≤ s.left_in_vial →
    headFrequency s.dosage_dicts ≠ 0 →
    muMeasure s < n →
    ∃ s', outer_loop n s = some s' := by
  intro n
  induction n with
  | zero => intro s _ _ _ hmu; omega
  | succ n ih =>
    intro s hok hleft hF hmu
    by_cases hv : s.vials_used < s.num_vials
    · obtain ⟨s1, hstep, e1, e2, e3, e4, e5, e6, hok1, hleft1, hvmono, hvcond⟩ :=
        dayStep_run s hok hleft
      have hFpos : 0 < fZero s := Int.natAbs_pos.mpr hF
      have hF1 : headFrequency s1.dosage_dicts ≠ 0 := by rw [e1]; exact hF
      have hFeq : fZero s1 = fZero s := by unfold fZero; rw [e1]
      have hBeq : bBound s1 = bBound s := by unfold bBound fZero; rw [e1, e4]
      have hheadeq : headDosage s1.dosage_dicts = headDosage s.dosage_dicts := by
        rw [e1]
      have hmu1 : muMeasure s1 < muMeasure s := by
        by_cases hvinc : s1.vials_used = s.vials_used
        · -- no new vial: the per-day measure drops
          obtain ⟨hle, hdrop⟩ := hvcond hvinc
          have hnu1 : nuMeasure s1 < nuMeasure s := by
            by_cases hdue : s.day % fZero s = 0
            · -- the highest-dose person was due today
              have hdueZ : (s.day : ℤ) % headFrequency s.dosage_dicts = 0 :=
                (due_iff s).mpr hdue
              have hdropped := hdrop hdueZ
              have ht : tlevel s1 + 1 ≤ tlevel s := by
                unfold tlevel
                rw [hheadeq]
                exact tlevel_drop s.left_in_vial s1.left_in_vial
                  (headDosage s.dosage_dicts) hok.head_pos
                  hok1.2.2.2.2.2.1 hdropped
              have hp0 : phase s = 0 := by
                unfold phase
                rw [hdue, Nat.sub_zero, Nat.mod_self]
              have hp1 : phase s1 < fZero s1 := Nat.mod_lt _ (by omega)
              unfold nuMeasure
              rw [hFeq] at hp1 ⊢
              rw [hp0]
              set F := fZero s
              set t := tlevel s
              set t1 := tlevel s1
              set p1 := phase s1
              calc (t1 + 1) * F + p1 < (t1 + 1) * F + F := by omega
                _ ≤ t * F + F := by
                    apply Nat.add_le_add_right
                    exact Nat.mul_le_mul_right F (by omega)
                _ ≤ (t + 1) * F + 0 := by
                    have : (t + 1) * F = t * F + F := by ring
                    omega
            · -- not due: one day closer to the next due day
              have ht : tlevel s1 ≤ tlevel s := by
                unfold tlevel
                rw [hheadeq]
                exact tlevel_mono s.left_in_vial s1.left_in_vial
                  (headDosage s.dosage_dicts) hok.head_pos hle
              obtain ⟨hps, hppos⟩ := phase_succ (fZero s) s.day hFpos hdue
              have hp1 : phase s1 = phase s - 1 := by
                unfold phase
                rw [hFeq, e6]
                exact hps
              unfold nuMeasure
              rw [hFeq, hp1]
              have hple : phase s ≤ fZero s := le_of_lt (Nat.mod_lt _ hFpos)
              have hppos' : 0 < phase s := hppos
              set F := fZero s
              set t := tlevel s
              set t1 := tlevel s1
              have hmul : (t1 + 1) * F ≤ (t + 1) * F :=
                Nat.mul_le_mul_right F (by omega)
              omega
          have hveq' : (s1.num_vials - s1.vials_used).toNat =
              (s.num_vials - s.vials_used).toNat := by
            rw [e3, hvinc]
          unfold muMeasure
          rw [hveq', hBeq]
          omega
        · -- a vial was consumed: the vial counter drops
          have hvlt : s.vials_used < s1.vials_used :=
            lt_of_le_of_ne hvmono (fun heq => hvinc heq.symm)
          have hX : (s1.num_vials - s1.vials_used).toNat + 1 ≤
              (s.num_vials - s.vials_used).toNat := by
            rw [e3]
            omega
          have hnu1 : nuMeasure s1 < bBound s := by
            rw [← hBeq]
            exact nu_lt_bBound s1 hok1 (by rw [hFeq]; exact hFpos)
          unfold muMeasure
          rw [hBeq]
          set B := bBound s
          set X := (s.num_vials - s.vials_used).toNat
          set X1 := (s1.num_vials - s1.vials_used).toNat
          have hmul : X1 * B ≤ (X - 1) * B :=
            Nat.mul_le_mul_right B (by omega)
          have hXB : (X - 1) * B + B = X * B := by
            have hX1 : 1 ≤ X := by omega
            have : X - 1 + 1 = X := by omega
            calc (X - 1) * B + B = (X - 1 + 1) * B := by ring
              _ = X * B := by rw [this]
          have hnus : 0 ≤ nuMeasure s := Nat.zero_le _
          calc X1 * B + nuMeasure s1 < X1 * B + B := by omega
            _ ≤ (X - 1) * B + B := by omega
            _ = X * B := hXB
            _ ≤ X * B + nuMeasure s := by omega
      obtain ⟨s', hrest⟩ := ih s1 hok1 hleft1 hF1 (by omega)
      refine ⟨s', ?_⟩
      unfold outer_loop
      rw [if_pos hv, hstep]
      exact hrest
    · refine ⟨s, ?_⟩
      unfold outer_loop
      rw [if_neg hv]

/-! ### Unconditional preservation along a run -/

theorem inner_loop_pres : ∀ (fuel : ℕ) (s s' : SimState),
    inner_loop fuel s = some s' →
    s'.dosage_dicts = s.dosage_dicts ∧ s'.total_people = s.total_people ∧
    s'.num_vials = s.num_vials ∧ s'.vial_volume = s.vial_volume ∧
    s'.early_termination = s.early_termination ∧ s'.day = s.day ∧
    s.vials_used ≤ s'.vials_used := by
  intro fuel
  induction fuel with
  | zero =>
    intro s s' h
    unfold inner_loop at h
    split at h
    · cases h
    · cases h
      exact ⟨rfl, rfl, rfl, rfl, rfl, rfl, le_refl _⟩
  | succ fuel ih =>
    intro s s' h
    unfold inner_loop at h
    split at h
    · set p := inner_pass s with hp
      obtain ⟨g1, g2, g3, g4, g5, g6, g7, g8⟩ :=
        pass_go_pres s.dosage_dicts s.injections_handled s
      obtain ⟨u1, u2, u3, u4, u5, u6, u7, u8⟩ := update_pres p
      obtain ⟨e1, e2, e3, e4, e5, e6, e7⟩ := ih (update_vials_used p) s' h
      refine ⟨e1.trans (u1.trans g1), e2.trans (u2.trans g2),
        e3.trans (u3.trans g3), e4.trans (u4.trans g4),
        e5.trans (u6.trans g7), e6.trans (u7.trans g8), ?_⟩
      calc s.vials_used = p.vials_used := g6.symm
        _ ≤ (update_vials_used p).vials_used := update_vials_mono p
        _ ≤ s'.vials_used := e7
    · cases h
      exact ⟨rfl, rfl, rfl, rfl, rfl, rfl, le_refl _⟩

theorem dayStep_pres (s s' : SimState) (h : dayStep s = some s') :
    s'.dosage_dicts = s.dosage_dicts ∧ s'.total_people = s.total_people ∧
    s'.num_vials = s.num_vials ∧ s'.vial_volume = s.vial_volume ∧
    s'.early_termination = s.early_termination ∧ s'.day = s.day + 1 ∧
    s.vials_used ≤ s'.vials_used := by
  unfold dayStep at h
  split at h
  · cases h
  · rename_i s1 hs1
    cases h
    obtain ⟨e1, e2, e3, e4, e5, e6, e7⟩ := inner_loop_pres _ _ _ hs1
    exact ⟨e1, e2, e3, e4, e5, by rw [e6], e7⟩

theorem sim_days_pres : ∀ (n : ℕ) (s s' : SimState),
    sim_days n s = some s' →
    s'.dosage_dicts = s.dosage_dicts ∧ s'.total_people = s.total_people ∧
    s'.num_vials = s.num_vials ∧ s'.vial_volume = s.vial_volume ∧
    s'.early_termination = s.early_termination ∧ s'.day = s.day + n ∧
    s.vials_used ≤ s'.vials_used := by
  intro n
  induction n with
  | zero =>
    intro s s' h
    unfold sim_days at h
    cases h
    exact ⟨rfl, rfl, rfl, rfl, rfl, rfl, le_refl _⟩
  | succ n ih =>
    intro s s' h
    unfold sim_days at h
    split at h
    · cases h
    · rename_i s1 hs1
      obtain ⟨d1, d2, d3, d4, d5, d6, d7⟩ := dayStep_pres s s1 hs1
      obtain ⟨e1, e2, e3, e4, e5, e6, e7⟩ := ih s1 s' h
      refine ⟨e1.trans d1, e2.trans d2, e3.trans d3, e4.trans d4,
        e5.trans d5, ?_, le_trans d7 e7⟩
      rw [e6, d6]
      omega

theorem outer_loop_to_sim_days : ∀ (fuel : ℕ) (s s' : SimState),
    outer_loop fuel s = some s' →
    ∃ n, sim_days n s = some s' ∧ s'.num_vials ≤ s'.vials_used ∧
      ∀ m, m < n → ∀ sm, sim_days m s = some sm →
        sm.vials_used < sm.num_vials := by
  intro fuel
  induction fuel with
  | zero =>
    intro s s' h
    unfold outer_loop at h
    split at h
    · cases h
    · cases h
      rename_i hv
      exact ⟨0, rfl, by omega, fun m hm => by omega⟩
  | succ fuel ih =>
    intro s s' h
    unfold outer_loop at h
    split at h
    · rename_i hv
      split at h
      · cases h
      · rename_i s1 hs1
        obtain ⟨n, hn, hend, hleast⟩ := ih s1 s' h
        refine ⟨n + 1, ?_, hend, ?_⟩
        · unfold sim_days
          rw [hs1]
          exact hn
        · intro m hm sm hsm
          cases m with
          | zero =>
            unfold sim_days at hsm
            cases hsm
            exact hv
          | succ m =>
            unfold sim_days at hsm
            rw [hs1] at hsm
            exact hleast m (by omega) sm hsm
    · cases h
      rename_i hv
      exact ⟨0, rfl, by omega, fun m hm => by omega⟩

/-! ### Facts about the constructed initial state -/

theorem round2_zero : round2 0 = 0 := by
  unfold round2 halfEvenRound
  norm_num

theorem init_early_iff (tp : ℕ) (ns : List String) (di : List (ℚ × ℤ))
    (nv : ℤ) (V : ℚ) :
    (init tp ns di nv V).early_termination = true ↔
      V < headDosage (mkDosageDicts tp ns di) ∨
      lastDosage (mkDosageDicts tp ns di) ≤ 0 := by
  show check_legal_dosages (mkDosageDicts tp ns di) V = true ↔ _
  unfold check_legal_dosages
  simp

theorem init_valid_facts (tp : ℕ) (ns : List String) (di : List (ℚ × ℤ))
    (nv : ℤ) (V : ℚ)
    (hval : (init tp ns di nv V).early_termination = false) :
    headDosage (mkDosageDicts tp ns di) ≤ V ∧
    0 < lastDosage (mkDosageDicts tp ns di) := by
  have h := init_early_iff tp ns di nv V
  rw [hval] at h
  simp only [Bool.false_eq_true, false_iff] at h
  push_neg at h
  exact ⟨h.1, h.2⟩

theorem init_StateOK (tp : ℕ) (ns : List String) (di : List (ℚ × ℤ))
    (nv : ℤ) (V : ℚ)
    (hval : (init tp ns di nv V).early_termination = false)
    (hne : mkDosageDicts tp ns di ≠ []) :
    StateOK (init tp ns di nv V) := by
  obtain ⟨hHV, hlast⟩ := init_valid_facts tp ns di nv V hval
  have hsorted := mkDosageDicts_sorted tp ns di
  have hlh := lastDosage_le_headDosage hsorted hne
  have hV : 0 ≤ V := le_trans (le_of_lt hlast) (le_trans hlh hHV)
  refine ⟨hne, hsorted, ?_, hHV, hlast, hV, le_refl V, ?_⟩
  · show tp = (mkDosageDicts tp ns di).length
    rw [mkDosageDicts_length]
  · intro h
    cases h

theorem init_person_mem (tp : ℕ) (ns : List String) (di : List (ℚ × ℤ))
    {p : PersonDosage} (hp : p ∈ mkDosageDicts tp ns di) :
    ∃ i, i < tp ∧
      p.dosage = round2 ((di.getD i (0, 0)).1 * ((di.getD i (0, 0)).2 : ℚ)) ∧
      p.frequency = (di.getD i (0, 0)).2 ∧
      p.name = ns.getD i "" := by
  have hmem : p ∈ (List.range tp).map (fun i =>
      let rf := di.getD i (0, 0)
      { dosage := round2 (rf.1 * (rf.2 : ℚ)), frequency := rf.2,
        name := ns.getD i "" : PersonDosage }) :=
    ((mkDosageDicts_perm tp ns di).mem_iff).mp hp
  obtain ⟨i, hi, hpi⟩ := List.mem_map.mp hmem
  refine ⟨i, List.mem_range.mp hi, ?_, ?_, ?_⟩ <;> rw [← hpi]

theorem init_headFrequency_ne (tp : ℕ) (ns : List String) (di : List (ℚ × ℤ))
    (nv : ℤ) (V : ℚ)
    (hval : (init tp ns di nv V).early_termination = false)
    (hne : mkDosageDicts tp ns di ≠ []) :
    headFrequency (mkDosageDicts tp ns di) ≠ 0 := by
  obtain ⟨a, t, hd⟩ : ∃ a t, mkDosageDicts tp ns di = a :: t := by
    rcases hx : mkDosageDicts tp ns di with _ | ⟨a, t⟩
    · exact absurd hx hne
    · exact ⟨a, t, rfl⟩
  obtain ⟨hHV, hlast⟩ := init_valid_facts tp ns di nv V hval
  have hsorted := mkDosageDicts_sorted tp ns di
  have hmem : a ∈ mkDosageDicts tp ns di := by
    rw [hd]; exact List.mem_cons_self a t
  have hpos : 0 < a.dosage :=
    lt_of_lt_of_le hlast (lastDosage_le_of_mem hsorted a hmem)
  intro hzero
  have hfa : a.frequency = 0 := by
    unfold headFrequency at hzero
    rw [hd] at hzero
    exact hzero
  obtain ⟨i, hi, hdos, hfreq, _⟩ := init_person_mem tp ns di hmem
  rw [hfa] at hfreq
  rw [← hfreq] at hdos
  simp only [Int.cast_zero, mul_zero] at hdos
  rw [round2_zero] at hdos
  rw [hdos] at hpos
  exact lt_irrefl 0 hpos

/-! ### Conservation deficit lemmas -/

theorem deficit_init (tp : ℕ) (ns : List String) (di : List (ℚ × ℤ))
    (nv : ℤ) (V : ℚ) : deficit (init tp ns di nv V) = 0 := by
  unfold deficit consLHS consRHS init
  simp

theorem deficit_do_injection (s : SimState) (d : ℚ) :
    deficit (do_injection s d).2 = deficit s := by
  unfold do_injection
  split
  · rename_i hg
    split
    · unfold deficit consLHS consRHS
      simp only [hg.1]
      simp
      ring
    · unfold deficit consLHS consRHS
      simp only [hg.1]
      simp
      ring
  · split
    · unfold deficit consLHS consRHS
      simp only
      by_cases hlo : s.leftover_vial = true <;> simp [hlo] <;> ring
    · rfl

theorem deficit_update (s : SimState) :
    deficit (update_vials_used s) = deficit s +
      (if s.leftover_vial = true ∧
          lastDosage s.dosage_dicts ≤ s.left_in_vial ∧
          s.left_in_vial < headDosage s.dosage_dicts
        then s.leftover_amount else 0) := by
  unfold update_vials_used
  split
  · rename_i h1
    rw [if_neg (by rintro ⟨_, h2, _⟩; linarith)]
    unfold deficit consLHS consRHS
    by_cases hlo : s.leftover_vial = true <;> simp [hlo] <;> ring
  · split
    · rename_i h1 h2
      unfold deficit consLHS consRHS
      by_cases hlo : s.leftover_vial = true
      · have hcond : s.leftover_vial = true ∧
            lastDosage s.dosage_dicts ≤ s.left_in_vial ∧
            s.left_in_vial < headDosage s.dosage_dicts := ⟨hlo, h2⟩
        rw [if_pos hcond]
        simp [hlo]
        try ring
      · have hcond : ¬(s.leftover_vial = true ∧
            lastDosage s.dosage_dicts ≤ s.left_in_vial ∧
            s.left_in_vial < headDosage s.dosage_dicts) := by
          rintro ⟨hc, _⟩
          exact hlo hc
        rw [if_neg hcond]
        simp [hlo]
        try ring
    · rename_i h1 h2
      have hcond : ¬(s.leftover_vial = true ∧
          lastDosage s.dosage_dicts ≤ s.left_in_vial ∧
          s.left_in_vial < headDosage s.dosage_dicts) := by
        rintro ⟨_, hc⟩
        exact h2 hc
      rw [if_neg hcond]
      simp

/-! ### Claim theorems -/

/-- C4: for every roster whose largest computed dosage exceeds the vial
volume, or whose smallest computed dosage is non-positive, `run_simulation`
returns the invalid-trial signal (Python `None`, here `some none`) without
running any simulation step, regardless of all other parameters and of the
fuel. -/
theorem validity_gate_returns_invalid (tp : ℕ) (ns : List String)
    (di : List (ℚ × ℤ)) (nv : ℤ) (V : ℚ)
    (hbad : (∃ p ∈ mkDosageDicts tp ns di, V < p.dosage) ∨
            (∃ p ∈ mkDosageDicts tp ns di, p.dosage ≤ 0)) :
    ∀ fuel, run_simulation fuel (init tp ns di nv V) = some none := by
  intro fuel
  have hearly : (init tp ns di nv V).early_termination = true := by
    rw [init_early_iff]
    have hsorted := mkDosageDicts_sorted tp ns di
    rcases hbad with ⟨p, hp, hpV⟩ | ⟨p, hp, hp0⟩
    · left
      exact lt_of_lt_of_le hpV (headDosage_ge_of_mem hsorted hp)
    · right
      exact le_trans (lastDosage_le_of_mem hsorted p hp) hp0
  unfold run_simulation
  rw [if_pos hearly]

theorem validity_gate_returns_invalid_witness :
    run_simulation 3 (init 1 ["Opal"] [(6, 1)] 5 5) = some none :=
  validity_gate_returns_invalid 1 ["Opal"] [(6, 1)] 5 5 (by with_unfolding_all decide) 3

/-- C7: the constructor computes each person's dosage as
`round2 (rate * interval)` with the given frequency and name (the roster is
a permutation of exactly those records), the roster is sorted in descending
dosage order, and every element's dosage lies between the last (minimum)
and the first (maximum) element's dosage. -/
theorem init_roster_computed_sorted (tp : ℕ) (ns : List String)
    (di : List (ℚ × ℤ)) :
    (mkDosageDicts tp ns di).Perm ((List.range tp).map (fun i =>
      { dosage := round2 ((di.getD i (0, 0)).1 * ((di.getD i (0, 0)).2 : ℚ)),
        frequency := (di.getD i (0, 0)).2,
        name := ns.getD i "" : PersonDosage })) ∧
    DescSorted (mkDosageDicts tp ns di) ∧
    (∀ p ∈ mkDosageDicts tp ns di,
      p.dosage ≤ headDosage (mkDosageDicts tp ns di) ∧
      lastDosage (mkDosageDicts tp ns di) ≤ p.dosage) := by
  refine ⟨mkDosageDicts_perm tp ns di, mkDosageDicts_sorted tp ns di, ?_⟩
  intro p hp
  have hsorted := mkDosageDicts_sorted tp ns di
  exact ⟨headDosage_ge_of_mem hsorted hp, lastDosage_le_of_mem hsorted p hp⟩

/-- C8: `waste` starts at 0 in the constructor; `do_injection` never
decreases it and keeps it (and the primary-vial content) non-negative;
`update_vials_used` does the same whenever the primary-vial content is
non-negative (which the loop maintains, the vial volume being
non-negative). -/
theorem waste_monotone_nonneg :
    (∀ (tp : ℕ) (ns : List String) (di : List (ℚ × ℤ)) (nv : ℤ) (V : ℚ),
      (init tp ns di nv V).waste = 0) ∧
    (∀ (s : SimState) (d : ℚ),
      s.waste ≤ (do_injection s d).2.waste ∧
      (0 ≤ s.waste → 0 ≤ (do_injection s d).2.waste) ∧
      (0 ≤ s.left_in_vial → 0 ≤ (do_injection s d).2.left_in_vial)) ∧
    (∀ s : SimState,
      (0 ≤ s.left_in_vial → s.waste ≤ (update_vials_used s).waste) ∧
      (0 ≤ s.waste → 0 ≤ s.left_in_vial → 0 ≤ (update_vials_used s).waste) ∧
      (0 ≤ s.left_in_vial → 0 ≤ s.vial_volume →
        0 ≤ (update_vials_used s).left_in_vial)) := by
  refine ⟨fun tp ns di nv V => rfl, fun s d => ⟨?_, ?_, ?_⟩, fun s => ⟨?_, ?_, ?_⟩⟩
  · exact do_injection_waste_mono s d
  · intro h
    exact le_trans h (do_injection_waste_mono s d)
  · exact do_injection_left_nonneg s d
  · exact update_waste_mono s
  · intro hw hl
    exact le_trans hw (update_waste_mono s hl)
  · exact update_left_nonneg s

theorem waste_monotone_nonneg_witness :
    (init 1 ["Opal"] [(3, 1)] 5 5).waste = 0 ∧
    (init 1 ["Opal"] [(3, 1)] 5 5).waste ≤
      (do_injection (init 1 ["Opal"] [(3, 1)] 5 5) 3).2.waste ∧
    0 ≤ (update_vials_used (init 1 ["Opal"] [(3, 1)] 5 5)).waste :=
  ⟨waste_monotone_nonneg.1 1 ["Opal"] [(3, 1)] 5 5,
   (waste_monotone_nonneg.2.1 (init 1 ["Opal"] [(3, 1)] 5 5) 3).1,
   (waste_monotone_nonneg.2.2 (init 1 ["Opal"] [(3, 1)] 5 5)).2.1
     (by with_unfolding_all decide) (by with_unfolding_all decide)⟩

/-- C9: any person with frequency 0 receives the computed dosage
`round2 (rate * 0) = 0`, making the roster's minimum dosage non-positive,
so validation marks the trial early-terminated and `run_simulation`
returns the invalid signal before the day loop (and hence before any
`day % frequency` with a zero frequency) is ever reached. -/
theorem freq_zero_invalid (tp : ℕ) (ns : List String) (di : List (ℚ × ℤ))
    (nv : ℤ) (V : ℚ) (i : ℕ) (hi : i < tp)
    (hf : (di.getD i (0, 0)).2 = 0) :
    (init tp ns di nv V).early_termination = true ∧
    ∀ fuel, run_simulation fuel (init tp ns di nv V) = some none := by
  have hmem0 : ∃ p ∈ mkDosageDicts tp ns di, p.dosage ≤ 0 := by
    refine ⟨{ dosage := round2 ((di.getD i (0, 0)).1 *
                ((di.getD i (0, 0)).2 : ℚ)),
              frequency := (di.getD i (0, 0)).2,
              name := ns.getD i "" }, ?_, ?_⟩
    · apply ((mkDosageDicts_perm tp ns di).mem_iff).mpr
      apply List.mem_map.mpr
      exact ⟨i, List.mem_range.mpr hi, rfl⟩
    · show round2 ((di.getD i (0, 0)).1 * ((di.getD i (0, 0)).2 : ℚ)) ≤ 0
      rw [hf]
      simp [round2_zero]
  have hearly : (init tp ns di nv V).early_termination = true := by
    rw [init_early_iff]
    right
    obtain ⟨p, hp, h0⟩ := hmem0
    exact le_trans
      (lastDosage_le_of_mem (mkDosageDicts_sorted tp ns di) p hp) h0
  refine ⟨hearly, fun fuel => ?_⟩
  unfold run_simulation
  rw [if_pos hearly]

theorem freq_zero_invalid_witness :
    (init 2 ["Opal", "Finn"] [(3, 1), (2, 0)] 5 5).early_termination = true ∧
    run_simulation 3 (init 2 ["Opal", "Finn"] [(3, 1), (2, 0)] 5 5) =
      some none := by
  have h := freq_zero_invalid 2 ["Opal", "Finn"] [(3, 1), (2, 0)] 5 5 1
    (by with_unfolding_all decide) (by with_unfolding_all decide)
  exact ⟨h.1, h.2 3⟩

/-- C10: for a roster that passes validation, a non-positive vial target
makes `run_simulation` skip the day loop entirely and return
`[0.0, 1, roster]` for every fuel value. -/
theorem nonpositive_target_result (tp : ℕ) (ns : List String)
    (di : List (ℚ × ℤ)) (nv : ℤ) (V : ℚ)
    (hval : (init tp ns di nv V).early_termination = false)
    (hnv : nv ≤ 0) :
    ∀ fuel, run_simulation fuel (init tp ns di nv V) =
      some (some (0, 1, mkDosageDicts tp ns di)) := by
  intro fuel
  have hcond : ¬((init tp ns di nv V).early_termination = true) := by
    rw [hval]
    simp
  have hnotlt : ¬({ init tp ns di nv V with day := 1 }.vials_used <
      { init tp ns di nv V with day := 1 }.num_vials) := by
    show ¬((0 : ℤ) < nv)
    omega
  unfold run_simulation
  rw [if_neg hcond]
  cases fuel with
  | zero =>
    unfold outer_loop
    rw [if_neg hnotlt]
    rfl
  | succ fuel =>
    unfold outer_loop
    rw [if_neg hnotlt]
    rfl

theorem nonpositive_target_result_witness :
    run_simulation 2 (init 1 ["Opal"] [(3, 1)] 0 5) =
      some (some (0, 1, mkDosageDicts 1 ["Opal"] [(3, 1)])) :=
  nonpositive_target_result 1 ["Opal"] [(3, 1)] 0 5 (by with_unfolding_all decide) (by with_unfolding_all decide) 2

/-- Transcription of the specification's three-step injection policy
(§4.2), written from the spec's wording, to be compared with the code's
`do_injection`: (1) an active leftover that can cover the dose serves it
without touching the primary vial, wasting and deactivating the remainder
when it drops below the minimum dosage; (2) otherwise a primary vial that
can cover the dose serves it; (3) otherwise the call fails and changes
nothing. -/
def DoInjectionSpec (s : SimState) (dose : ℚ) (r : Bool × SimState) : Prop :=
  ((s.leftover_vial = true ∧ 0 ≤ s.leftover_amount - dose) →
    (r.1 = true ∧
     r.2.left_in_vial = s.left_in_vial ∧
     r.2.leftover_amount = s.leftover_amount - dose ∧
     (s.leftover_amount - dose < lastDosage s.dosage_dicts →
       r.2.waste = s.waste + (s.leftover_amount - dose) ∧
       r.2.leftover_vial = false) ∧
     (lastDosage s.dosage_dicts ≤ s.leftover_amount - dose →
       r.2.waste = s.waste ∧ r.2.leftover_vial = true))) ∧
  ((¬(s.leftover_vial = true ∧ 0 ≤ s.leftover_amount - dose)) →
    0 ≤ s.left_in_vial - dose →
    (r.1 = true ∧ r.2.left_in_vial = s.left_in_vial - dose ∧
     r.2.waste = s.waste ∧ r.2.leftover_vial = s.leftover_vial ∧
     r.2.leftover_amount = s.leftover_amount)) ∧
  ((¬(s.leftover_vial = true ∧ 0 ≤ s.leftover_amount - dose)) →
    s.left_in_vial - dose < 0 →
    (r.1 = false ∧ r.2 = s))

/-- C5: `do_injection` implements the three-step policy exactly as the
specification words it: leftover first (with waste-and-deactivate when the
remainder falls below the minimum dosage, and the primary vial untouched),
then the primary vial, else failure with no state change. -/
theorem do_injection_three_step_policy (s : SimState) (dose : ℚ) :
    DoInjectionSpec s dose (do_injection s dose) := by
  refine ⟨?_, ?_, ?_⟩
  · intro hg
    unfold do_injection
    rw [if_pos hg]
    by_cases h2 : (s.leftover_amount - dose) - lastDosage s.dosage_dicts < 0
    · rw [if_pos h2]
      refine ⟨rfl, rfl, rfl, fun _ => ⟨rfl, rfl⟩, fun hc => ?_⟩
      exfalso
      linarith
    · rw [if_neg h2]
      push_neg at h2
      refine ⟨rfl, rfl, rfl, fun hc => ?_, fun _ => ⟨rfl, hg.1⟩⟩
      exfalso
      linarith
  · intro hg h2
    unfold do_injection
    rw [if_neg hg, if_pos h2]
    exact ⟨rfl, rfl, rfl, rfl, rfl⟩
  · intro hg h2
    unfold do_injection
    rw [if_neg hg, if_neg (by linarith : ¬(0 ≤ s.left_in_vial - dose))]
    exact ⟨rfl, rfl⟩

/-- C1 (amended): conservation holds up to a non-negative deficit.  With
`vialsUsed` read as the spec defines it (vials opened including the active
one, i.e. `vials_used + 1`), the deficit
`vialsUsed * vial_volume - (waste + consumed + activeRemaining + active
leftover)` is 0 at construction, is left unchanged by every `do_injection`
call, and is left unchanged by `update_vials_used` except when an active
leftover is overwritten by a new one, in which case it grows by exactly the
overwritten leftover amount. -/
theorem conservation_deficit_step :
    (∀ (tp : ℕ) (ns : List String) (di : List (ℚ × ℤ)) (nv : ℤ) (V : ℚ),
      deficit (init tp ns di nv V) = 0) ∧
    (∀ (s : SimState) (d : ℚ), deficit (do_injection s d).2 = deficit s) ∧
    (∀ s : SimState, deficit (update_vials_used s) = deficit s +
      (if s.leftover_vial = true ∧
          lastDosage s.dosage_dicts ≤ s.left_in_vial ∧
          s.left_in_vial < headDosage s.dosage_dicts
        then s.leftover_amount else 0)) :=
  ⟨deficit_init, deficit_do_injection, deficit_update⟩

/-- C1 counterexample: after two days of the trial with Alice (dosage 4,
every day) and Bob (dosage 2, every 3 days), vial volume 7 and target 2,
the reachable state has `waste + consumed + activeRemaining + leftover =
18` while `vialsUsed * vial_volume = 21` (Bob's still-active leftover of 3
was silently overwritten), so the conservation equation of the claim
fails. -/
theorem conservation_overwrite_cex :
    (run_states 2 (init 2 ["Alice", "Bob"] [(4, 1), (2/3, 3)] 2 7)).map
      (fun s => (consLHS s, consRHS s)) = some (18, 21) ∧
    (18 : ℚ) ≠ 21 := by
  constructor
  · with_unfolding_all decide
  · with_unfolding_all decide

/-- C2 (amended): when `run_simulation` returns `[waste, day, roster]`, the
returned `day` equals `n + 1` where `n` is the smallest number of fully
processed days after which the count of consumed vials (`vials_used`,
excluding the currently active vial) has reached `num_vials`; every
shorter prefix of days leaves `vials_used` strictly below the target. -/
theorem run_day_one_more_than_least (fuel : ℕ) (s : SimState) (w : ℚ)
    (d : ℕ) (ro : List PersonDosage)
    (h : run_simulation fuel s = some (some (w, d, ro))) :
    ∃ n s', d = n + 1 ∧ sim_days n { s with day := 1 } = some s' ∧
      s.num_vials ≤ s'.vials_used ∧ w = s'.waste ∧ ro = s'.dosage_dicts ∧
      ∀ m, m < n → ∀ sm, sim_days m { s with day := 1 } = some sm →
        sm.vials_used < s.num_vials := by
  unfold run_simulation at h
  split at h
  · simp at h
  · split at h
    · cases h
    · rename_i s' hs'
      simp only [Option.some.injEq, Prod.mk.injEq] at h
      obtain ⟨hw, hd, hro⟩ := h
      obtain ⟨n, hsim, hend, hleast⟩ := outer_loop_to_sim_days fuel _ s' hs'
      obtain ⟨p1, p2, p3, p4, p5, p6, p7⟩ := sim_days_pres n _ s' hsim
      refine ⟨n, s', ?_, hsim, ?_, hw.symm, hro.symm, ?_⟩
      · rw [← hd, p6]
        show 1 + n = n + 1
        omega
      · have : s'.num_vials = s.num_vials := p3
        omega
      · intro m hm sm hsm
        obtain ⟨q1, q2, q3, q4, q5, q6, q7⟩ := sim_days_pres m _ sm hsm
        have hq := hleast m hm sm hsm
        have : sm.num_vials = s.num_vials := q3
        omega

theorem run_day_one_more_than_least_witness :
    ∃ n s', 2 = n + 1 ∧
      sim_days n { init 1 ["Ann"] [(5, 1)] 1 5 with day := 1 } = some s' ∧
      (init 1 ["Ann"] [(5, 1)] 1 5).num_vials ≤ s'.vials_used ∧
      (0 : ℚ) = s'.waste ∧
      ([⟨5, 1, "Ann"⟩] : List PersonDosage) = s'.dosage_dicts ∧
      ∀ m, m < n → ∀ sm,
        sim_days m { init 1 ["Ann"] [(5, 1)] 1 5 with day := 1 } = some sm →
        sm.vials_used < (init 1 ["Ann"] [(5, 1)] 1 5).num_vials :=
  run_day_one_more_than_least 1 (init 1 ["Ann"] [(5, 1)] 1 5) 0 2
    [⟨5, 1, "Ann"⟩] (by with_unfolding_all decide)

/-- C2 counterexample: one person with dosage 5 every day, vial volume 5,
target 1 vial.  The vial count reaches the target during day 1 (after one
fully processed day `vials_used = 1 = num_vials`), but `run_simulation`
returns day 2, not day 1, because `self.day` is incremented before the
loop condition is rechecked. -/
theorem run_day_off_by_one_cex :
    run_simulation 1 (init 1 ["Ann"] [(5, 1)] 1 5) =
      some (some (0, 2, [⟨5, 1, "Ann"⟩])) ∧
    (sim_days 1 { init 1 ["Ann"] [(5, 1)] 1 5 with day := 1 }).map
      (fun s => s.vials_used) = some 1 ∧
    (init 1 ["Ann"] [(5, 1)] 1 5).num_vials = 1 ∧
    (2 : ℕ) ≠ 1 := by
  refine ⟨?_, ?_, ?_, ?_⟩ <;> with_unfolding_all decide

/-- C3 (amended): `update_vials_used` is called at the end of every pass of
the inner loop, whether or not any injection failed; what the code
guarantees is that the call is a no-op exactly when `left_in_vial` covers
the roster's maximum dosage — a fully successful pass can still change the
vial state when the remaining volume dropped below the maximum dosage. -/
theorem update_noop_iff_covers_max (s : SimState)
    (h : lastDosage s.dosage_dicts ≤ headDosage s.dosage_dicts) :
    update_vials_used s = s ↔
      headDosage s.dosage_dicts ≤ s.left_in_vial := by
  constructor
  · intro heq
    by_contra hlt
    push_neg at hlt
    unfold update_vials_used at heq
    split at heq
    · have hv := congrArg SimState.vials_used heq
      simp only at hv
      omega
    · split at heq
      · have hv := congrArg SimState.vials_used heq
        simp only at hv
        omega
      · rename_i h1 h2
        push_neg at h1 h2
        have := h2 h1
        linarith
  · intro hge
    unfold update_vials_used
    rw [if_neg (not_lt.mpr (le_trans h hge))]
    rw [if_neg (by rintro ⟨_, hlt⟩; linarith)]

theorem update_noop_iff_covers_max_witness :
    (update_vials_used (init 1 ["Ann"] [(3, 1)] 5 5) =
      init 1 ["Ann"] [(3, 1)] 5 5) ↔
    headDosage (init 1 ["Ann"] [(3, 1)] 5 5).dosage_dicts ≤
      (init 1 ["Ann"] [(3, 1)] 5 5).left_in_vial :=
  update_noop_iff_covers_max (init 1 ["Ann"] [(3, 1)] 5 5)
    (by with_unfolding_all decide)

/-- C3 counterexample: one person with dosage 4 every day, vial volume 5.
On day 1 the single pass succeeds for everyone (no flag is left false),
yet the `update_vials_used` call that the loop then makes changes the vial
state (the remaining 1 mL is below the minimum dosage, so it is wasted and
a new vial is opened), contradicting the claim that after a fully
successful pass the vial state is left unchanged. -/
theorem update_after_success_cex :
    (false ∉ (inner_pass (init 1 ["Ann"] [(4, 1)] 2 5)).injections_handled) ∧
    update_vials_used (inner_pass (init 1 ["Ann"] [(4, 1)] 2 5)) ≠
      inner_pass (init 1 ["Ann"] [(4, 1)] 2 5) := by
  constructor
  · with_unfolding_all decide
  · with_unfolding_all decide

/-- C6 (amended): for every trial that passes dosage validation (with a
non-empty roster), `run_simulation` terminates — there is a fuel value for
which it returns a result.  The inner retry loop of each day converges in
at most as many passes as there are unhandled people: fuel
`injections_handled.count false` (at most `total_people`) always suffices.
The stronger two-pass-per-day bound of the claim is false (see the
counterexample). -/
theorem run_simulation_terminates (tp : ℕ) (ns : List String)
    (di : List (ℚ × ℤ)) (nv : ℤ) (V : ℚ)
    (hval : (init tp ns di nv V).early_termination = false)
    (hne : mkDosageDicts tp ns di ≠ []) :
    (∃ fuel r, run_simulation fuel (init tp ns di nv V) = some (some r)) ∧
    (∀ (s : SimState) (fuel : ℕ), StateOK s →
      headDosage s.dosage_dicts ≤ s.left_in_vial →
      s.injections_handled.length = s.dosage_dicts.length →
      s.injections_handled.count false ≤ fuel →
      ∃ s', inner_loop fuel s = some s') := by
  constructor
  · have hok : StateOK (init tp ns di nv V) :=
      init_StateOK tp ns di nv V hval hne
    have hF : headFrequency ((init tp ns di nv V).dosage_dicts) ≠ 0 :=
      init_headFrequency_ne tp ns di nv V hval hne
    set s1 : SimState := { init tp ns di nv V with day := 1 } with hs1
    have hok1 : StateOK s1 := hok
    have hleft1 : headDosage s1.dosage_dicts ≤ s1.left_in_vial :=
      hok1.2.2.2.1
    have hF1 : headFrequency s1.dosage_dicts ≠ 0 := hF
    obtain ⟨s', hs'⟩ :=
      outer_run (muMeasure s1 + 1) s1 hok1 hleft1 hF1 (by omega)
    refine ⟨muMeasure s1 + 1, (s'.waste, s'.day, s'.dosage_dicts), ?_⟩
    unfold run_simulation
    rw [if_neg (by rw [hval]; simp)]
    rw [hs']
  · intro s fuel hok hleft hlen hcount
    obtain ⟨s', hrun, _⟩ := inner_loop_run fuel s hok hleft hlen hcount
    exact ⟨s', hrun⟩

theorem run_simulation_terminates_witness :
    (∃ fuel r, run_simulation fuel (init 1 ["Ann"] [(3, 1)] 1 5) =
      some (some r)) ∧
    (∀ (s : SimState) (fuel : ℕ), StateOK s →
      headDosage s.dosage_dicts ≤ s.left_in_vial →
      s.injections_handled.length = s.dosage_dicts.length →
      s.injections_handled.count false ≤ fuel →
      ∃ s', inner_loop fuel s = some s') :=
  run_simulation_terminates 1 ["Ann"] [(3, 1)] 1 5
    (by with_unfolding_all decide) (by with_unfolding_all decide)

/-- C6 counterexample: three people each with dosage 4 every day, vial
volume 5.  Day 1 needs three passes of the inner loop (each pass resolves
one person and opens a new vial), so fuel for two passes returns `none`
while fuel for three passes succeeds — the claimed two-pass convergence
bound is wrong.  The whole simulation still terminates on this input. -/
theorem two_pass_bound_cex :
    inner_loop 2
      (init 3 ["Ann", "Ben", "Cal"] [(4, 1), (4, 1), (4, 1)] 20 5) = none ∧
    (inner_loop 3
      (init 3 ["Ann", "Ben", "Cal"] [(4, 1), (4, 1), (4, 1)] 20 5)).isSome =
      true ∧
    (run_simulation 40
      (init 3 ["Ann", "Ben", "Cal"] [(4, 1), (4, 1), (4, 1)] 20 5)).isSome =
      true := by
  refine ⟨?_, ?_, ?_⟩ <;> with_unfolding_all decide

theorem conservation_deficit_step_witness :
    deficit (init 1 ["Ann"] [(3, 1)] 5 5) = 0 ∧
    deficit (do_injection (init 1 ["Ann"] [(3, 1)] 5 5) 3).2 =
      deficit (init 1 ["Ann"] [(3, 1)] 5 5) ∧
    deficit (update_vials_used (init 1 ["Ann"] [(3, 1)] 5 5)) =
      deficit (init 1 ["Ann"] [(3, 1)] 5 5) +
      (if (init 1 ["Ann"] [(3, 1)] 5 5).leftover_vial = true ∧
          lastDosage (init 1 ["Ann"] [(3, 1)] 5 5).dosage_dicts ≤
            (init 1 ["Ann"] [(3, 1)] 5 5).left_in_vial ∧
          (init 1 ["Ann"] [(3, 1)] 5 5).left_in_vial <
            headDosage (init 1 ["Ann"] [(3, 1)] 5 5).dosage_dicts
        then (init 1 ["Ann"] [(3, 1)] 5 5).leftover_amount else 0) :=
  ⟨conservation_deficit_step.1 1 ["Ann"] [(3, 1)] 5 5,
   conservation_deficit_step.2.1 (init 1 ["Ann"] [(3, 1)] 5 5) 3,
   conservation_deficit_step.2.2 (init 1 ["Ann"] [(3, 1)] 5 5)⟩

theorem do_injection_three_step_policy_witness :
    DoInjectionSpec (init 1 ["Ann"] [(3, 1)] 5 5) 3
      (do_injection (init 1 ["Ann"] [(3, 1)] 5 5) 3) :=
  do_injection_three_step_policy (init 1 ["Ann"] [(3, 1)] 5 5) 3

theorem init_roster_computed_sorted_witness :
    (mkDosageDicts 1 ["Ann"] [((3 : ℚ), (1 : ℤ))]).Perm
      ((List.range 1).map (fun i =>
        { dosage := round2 (([((3 : ℚ), (1 : ℤ))].getD i (0, 0)).1 *
            (([((3 : ℚ), (1 : ℤ))].getD i (0, 0)).2 : ℚ)),
          frequency := ([((3 : ℚ), (1 : ℤ))].getD i (0, 0)).2,
          name := ["Ann"].getD i "" : PersonDosage })) ∧
    DescSorted (mkDosageDicts 1 ["Ann"] [((3 : ℚ), (1 : ℤ))]) ∧
    (∀ p ∈ mkDosageDicts 1 ["Ann"] [((3 : ℚ), (1 : ℤ))],
      p.dosage ≤ headDosage (mkDosageDicts 1 ["Ann"] [((3 : ℚ), (1 : ℤ))]) ∧
      lastDosage (mkDosageDicts 1 ["Ann"] [((3 : ℚ), (1 : ℤ))]) ≤ p.dosage) :=
  init_roster_computed_sorted 1 ["Ann"] [((3 : ℚ), (1 : ℤ))]
